import Mathlib

/-!
Verification of the GameShare repository (a ROP/JOP chain construction
engine running inside a compromised browser process) against its
natural-language specification.

The development shallowly embeds:
* the `Int64` fixed-width value type of `src/unnamed/part_000`
  (byte-wise little-endian arithmetic with explicit carries);
* the `Chain803Base` / `Chain803` chain builder of `src/unnamed/part_001`
  (stack serializer, branch emulator, save/restore, invocation protocol).

The base class `ChainBase` (module/chain.mjs) is imported by the source but
its file is not part of the repository snapshot; every definition that
stands in for it is marked `Modelled from the spec:` and follows the
specification text only.
-/

namespace GameShare

/-! ## Int64 (src/unnamed/part_000)

The source stores a value as a `Uint8Array(8)`, little-endian (byte 0 is the
least significant).  `add`/`sub` loop over the 8 bytes propagating a
carry/borrow; assigning an out-of-range JS number into a `Uint8Array` cell
truncates it modulo 256, which the embedding performs with explicit `% 256`.
-/

/-- Little-endian base-256 value of a byte list (the number an `Int64`
denotes); byte 0 is least significant, matching the source's storage. -/
def valB : List Nat → Nat
  | [] => 0
  | b :: bs => b + 256 * valB bs

/-- Source `Int64.add` body: `cur = this.byteAt(i) + a.byteAt(i) + carry;
carry = cur > 0xff | 0; ret[i] = cur`, with the `Uint8Array` truncating
`cur` modulo 256 when the result object is constructed. -/
def addB : List Nat → List Nat → Nat → List Nat
  | a :: as, b :: bs, cin =>
      ((a + b + cin) % 256) :: addB as bs (if 255 < a + b + cin then 1 else 0)
  | _, _, _ => []

/-- Source `Int64.sub` body: `cur = this.byteAt(i) - a.byteAt(i) - carry;
carry = cur < 0 | 0; ret[i] = cur`; a negative `cur` stored into a
`Uint8Array` wraps modulo 256, i.e. becomes `a + 256 - (b + borrow)`. -/
def subB : List Nat → List Nat → Nat → List Nat
  | a :: as, b :: bs, bin =>
      ((a + 256 - (b + bin)) % 256) :: subB as bs (if a < b + bin then 1 else 0)
  | _, _, _ => []

/-- The `Int64` value type: 8 bytes, little endian.  Well-formedness
(length 8, every byte < 256) is carried as theorem hypotheses. -/
structure Int64 where
  bytes : List Nat
deriving DecidableEq

/-- Source `this.byteAt(i)`: byte `i` of the backing `Uint8Array` (0 when out of
range, as `Uint8Array` indexing never traps for the loops used here). -/
def Int64.byteAt (x : Int64) (i : Nat) : Nat := x.bytes.getD i 0

/-- Source `Int64.prototype.add`. -/
def Int64.add (x y : Int64) : Int64 := ⟨addB x.bytes y.bytes 0⟩

/-- Source `Int64.prototype.sub`. -/
def Int64.sub (x y : Int64) : Int64 := ⟨subB x.bytes y.bytes 0⟩

/-- Source `Int64.One = new Int64(1)`. -/
def Int64.One : Int64 := ⟨1 :: List.replicate 7 0⟩

/-- Source `Int64.Zero = new Int64(0)`. -/
def Int64.Zero : Int64 := ⟨List.replicate 8 0⟩

/-- Source `Int64.prototype.neg`: `ret[i] = ~this.byteAt(i)` for the 8 bytes
(`~b` stored into a `Uint8Array` is `255 - b`), then
`new Int64(ret).add(Int64.One)`. -/
def Int64.neg (x : Int64) : Int64 :=
  Int64.add ⟨(List.range 8).map fun i => 255 - x.byteAt i⟩ Int64.One

/-- Source `Int64.prototype.equals` on two `Int64` instances: compares the 8 bytes
pairwise. -/
def Int64.equals (x y : Int64) : Bool :=
  (List.range 8).all fun i => x.byteAt i == y.byteAt i

/-- The number denoted by an `Int64` (interpretation used to state
"arithmetic is exact modulo 2^64"). -/
def Int64.val (x : Int64) : Nat := valB x.bytes

/-- Every byte of the list is a valid `Uint8Array` cell value. -/
def bytesWF (l : List Nat) : Prop := ∀ b ∈ l, b < 256

instance (l : List Nat) : Decidable (bytesWF l) := by
  unfold bytesWF; infer_instance

/-! ## Int64 constructor validation (src/unnamed/part_000, lines 5-50)

The constructor is dynamically typed; its possible argument shapes are
embedded as an inductive type.  JS numbers are modelled as integers (the
only operations performed on them before validation succeeds are the
comparisons below, which agree with the float comparisons on
integer-valued inputs; floating point itself is out of scope). -/

/-- One JS argument to the `Int64` constructor.  `str n` is a string whose
hex payload (after stripping an optional `0x` prefix) has `n` characters;
`objArr n` is a non-`Int64` object whose `length` property is `n`. -/
inductive JsArg
  | num (n : Int)
  | str (hexDigits : Nat)
  | int64obj
  | objArr (len : Nat)
  | undef
deriving DecidableEq

/-- Outcome class of a thrown constructor error (`TypeError` vs
`RangeError`). -/
inductive JsError
  | typeErr
  | rangeErr
deriving DecidableEq

/-- Is the argument a JS number (`typeof low == 'number'`)? -/
def JsArg.isNum : JsArg → Bool
  | .num _ => true
  | _ => false

/-- Number of hex digits of `n.toString(16)` for a natural number. -/
def hexLen (n : Nat) : Nat := (Nat.toDigits 16 n).length

/-- Length of `Math.floor(low).toString(16)` for an integer-valued number
(a leading `-` sign adds one character). -/
def jsNumHexLen (n : Int) : Nat :=
  if n < 0 then 1 + hexLen n.natAbs else hexLen n.toNat

/-- The `case 'string'` tail of the constructor: the string is padded to
even length, `unhexlify` produces one byte per digit pair, and
`bytes.set(arr)` throws a `RangeError` when more than 8 bytes are stored
into the `Uint8Array(8)`. -/
def strCase (digits : Nat) : Except JsError Unit :=
  let padded := if digits % 2 = 1 then digits + 1 else digits
  if 8 < padded / 2 then .error .rangeErr else .ok ()

/-- The `switch (typeof low)` body for a single argument: a number is
converted to a hex string and falls through to the string case; an `Int64`
instance is copied byte-wise; another object must have `length == 8` or a
`TypeError` is thrown; `undefined` leaves the zeroed buffer. -/
def switchCase : JsArg → Except JsError Unit
  | .num n => strCase (jsNumHexLen n)
  | .str d => strCase d
  | .int64obj => .ok ()
  | .objArr len => if len = 8 then .ok () else .error .typeErr
  | .undef => .ok ()

/-- The `Int64` constructor's control flow over its argument list:
`arguments.length > 2 || arguments.length == 0` throws `TypeError`; in the
two-argument form both must be numbers (`TypeError`) within `[0, 2^32-1]`
(`RangeError`), after which `"0x" + high.toString(16) + low8` falls into
the string case; a single argument goes through `switch (typeof low)`. -/
def i64ctor : List JsArg → Except JsError Unit
  | args =>
    if 2 < args.length ∨ args.length = 0 then .error .typeErr
    else
      match args with
      | [lo, hi] =>
        match lo, hi with
        | .num l, .num h =>
          if 0xffffffff < l ∨ 0xffffffff < h ∨ l < 0 ∨ h < 0 then
            .error .rangeErr
          else
            strCase (hexLen h.toNat + 8)
        | _, _ => .error .typeErr
      | [one] => switchCase one
      | _ => .error .typeErr

/-! ## Chain builder (src/unnamed/part_001, `Chain803Base` / `Chain803`)

The chain owns a byte buffer (`this.stack`) written 8 bytes at a time at
the cursor `position`, so the buffer is embedded as a map from byte offset
to the 8-byte value stored there (all stores performed by the source,
including the retro-active `rw.write64` patches, are at offsets that were
cursor values, hence 8-byte aligned and non-overlapping).  Target-memory
addresses pushed into the chain (gadget addresses, scratch buffer
addresses, `stack_addr + k`) are symbolic. -/

/-- A gadget key of the catalog (the instruction string used in the
source's `webkit_gadget_offsets` / `libc_gadget_offsets` maps). -/
inductive Gadget
  /-- Source `'pop rax; ret'` -/
  | popRax
  /-- Source `'pop rcx; ret'` -/
  | popRcx
  /-- Source `'pop rdx; ret'` -/
  | popRdx
  /-- Source `'pop rsi; ret'` -/
  | popRsi
  /-- Source `'pop rdi; ret'` -/
  | popRdi
  /-- Source `'pop r8; ret'` -/
  | popR8
  /-- Source `'pop r9; ret'` -/
  | popR9
  /-- Source `'ret'` -/
  | ret
  /-- Source `'leave; ret'` (the `rop_epilogue`) -/
  | leaveRet
  /-- Source `'neg rax; ret'` -/
  | negRax
  /-- Source `'adc esi, esi; ret'` -/
  | adcEsiEsi
  /-- Source `'add rax, rdx; ret'` -/
  | addRaxRdx
  /-- Source `'neg rax; and rax, rcx; ret'` -/
  | negRaxAndRaxRcx
  /-- Source `'add rcx, rsi; and rdx, rcx; or rax, rdx; ret'` -/
  | addRcxRsiAndRdxRcxOrRaxRdx
  /-- Source `'mov rdx, rcx; ret'` -/
  | movRdxRcx
  /-- Source `'mov qword ptr [rdi], rsi; ret'` -/
  | movQwordRdiRsi
  /-- Source `'mov rax, qword ptr [rax]; ret'` -/
  | movRaxQwordRax
  /-- Source `'mov qword ptr [rdi], rax; ret'` -/
  | movQwordRdiRax
  /-- Source `'mov rdx, rax; xor eax, eax; shl rdx, cl; ret'` -/
  | movRdxRaxXorEaxShlRdxCl
  /-- Source `'pop rdi; jmp qword ptr [rax + 0x50]'` -/
  | popRdiJmpRax50
  /-- Source `'setjmp'` (libc) -/
  | setjmp
  /-- Source `'longjmp'` (libc) -/
  | longjmp
deriving DecidableEq

/-- An 8-byte value stored into the chain buffer. -/
inductive Q
  /-- the resolved address of a catalog gadget (`this.get_gadget(key)`) -/
  | gadget (g : Gadget)
  /-- a numeric constant (`push_constant(v)` / `new Int(v)`) -/
  | cst (n : Int)
  /-- Source `this.stack_addr.add(off)`: target-visible address of buffer byte `off` -/
  | stackAddr (off : Nat)
  /-- Source `this.flag_addr`: address of the branch scratch flag byte -/
  | flagAddr
  /-- Source `this.jmp_buf_p.add(off)`: address into the checkpoint (`jmp_buf`) region -/
  | jmpBufAddr (off : Nat)
  /-- Source `get_view_vector(this.jmp_target)`: address of the JOP dispatch table -/
  | jmpTargetAddr
  /-- Source `this.retval_addr`: address of the fixed return-value slot -/
  | retvalAddr
  /-- the resolved address of a syscall wrapper (trampoline) -/
  | sysTrampoline (num : Nat)
  /-- an opaque caller-supplied argument value -/
  | arg (i : Nat)
deriving DecidableEq

/-- A JS value held by the branch-context fields (`branch_position`,
`delta_slot`, `rsp_slot`, `rsp_position`), which the source assigns both
`null`/`true` and numbers. -/
inductive JVal
  | null
  | bool (b : Bool)
  | num (n : Int)
deriving DecidableEq

/-- JS `Number(v)` coercion as used by `v - w`, `v + 8` and array
indexing on these fields: `null` is 0, `true` is 1, `false` is 0. -/
def JVal.toNum : JVal → Int
  | .null => 0
  | .bool b => if b then 1 else 0
  | .num n => n

/-- JS array-index coercion of such a value (used by
`rw.write64(this.stack, slot, v)`). -/
def JVal.toIdx (v : JVal) : Nat := v.toNum.toNat

/-- JS `v + k` on such a value (the source's `this.branch_position += 8`). -/
def JVal.addN (v : JVal) (k : Int) : JVal := .num (v.toNum + k)

/-- Errors thrown by the chain engine.  The first four arise in
`ChainBase` operations modelled from the spec; the rest are the literal
`throw Error(...)` sites of `Chain803Base` / `Chain803`. -/
inductive ChainErr
  /-- Modelled from the spec: `ChainOverflowError`, pushing past capacity -/
  | overflow
  /-- Modelled from the spec: `TooManyArgumentsError`, more than six call args -/
  | tooManyArgs
  /-- Modelled from the spec: `check_stale()` on an already-run chain -/
  | staleChain
  /-- Modelled from the spec: `check_is_empty()` on an empty chain -/
  | emptyChain
  /-- Source `'chain is still branching, end it before running'` -/
  | stillBranching
  /-- Source `'chain already branching, end it first'` -/
  | alreadyBranching
  /-- Source `'can not end nonbranching chain'` -/
  | notBranching
  /-- Source `'restore first before saving again'` -/
  | restoreFirst
  /-- Source `'save first before restoring'` -/
  | saveFirst
  /-- Source `'call() needs an empty chain'` / `'syscall() needs an empty chain'` -/
  | needEmptyChain
deriving DecidableEq

/-- A mutation of target memory performed by `Chain803.run` outside the
chain's own buffer. -/
inductive TargetEvent
  /-- Source `this.webcore_ta.write64(0, get_view_vector(this.vtable))` -/
  | setFakeVtable
  /-- Source `this.textarea.scrollLeft` (control flow diverted into the chain) -/
  | triggerScrollLeft
  /-- Source `this.webcore_ta.write64(0, this.old_vtable_p)` -/
  | restoreVtable
deriving DecidableEq

/-- The mutable state of one chain object.  `stack`, `stack_size`,
`position` and `is_stale` belong to the spec-modelled `ChainBase`; the
remaining fields are declared by `Chain803Base`'s constructor. -/
structure Chain where
  /-- the backing buffer, as a map from byte offset to stored 8-byte value -/
  stack : Nat → Q
  /-- Modelled from the spec: the fixed buffer capacity in bytes -/
  stack_size : Nat
  /-- Modelled from the spec: the write cursor -/
  position : Nat
  /-- Modelled from the spec: has the chain run since the last clean -/
  is_stale : Bool
  /-- is a branch context open (set by `_clean_branch_ctx` / `start_branch`) -/
  is_branch_ctx : Bool
  /-- bytes of conditional body appended so far (`null` outside a branch) -/
  branch_position : JVal
  /-- buffer offset of the branch delta placeholder -/
  delta_slot : JVal
  /-- buffer offset of the branch stack-pointer placeholder -/
  rsp_slot : JVal
  /-- value of `branch_position` when the branch pivot was emitted -/
  rsp_position : JVal
  /-- is a `push_save` pending (checkpoint valid to restore) -/
  is_saved : Bool

/-- Source `rw.write64(buf, off, v)`: store an 8-byte value at a byte offset. -/
def write64 (buf : Nat → Q) (off : Nat) (v : Q) : Nat → Q :=
  fun i => if i = off then v else buf i

/-- Modelled from the spec: `ChainBase.push_value` — appends an 8-byte
value at `position` and advances the cursor, failing with the overflow
error when the buffer is full ("all mutate `position` forward by a fixed
size and fail with `ChainOverflowError` if the buffer is full"). -/
def Chain.push_value_base (c : Chain) (v : Q) : Except ChainErr Chain :=
  if c.stack_size < c.position + 8 then .error .overflow
  else .ok { c with stack := write64 c.stack c.position v,
                    position := c.position + 8 }

/-- Source `Chain803Base.push_value` (lines 297-303): `super.push_value(value)`,
then `if (this.is_branch_ctx) this.branch_position += 8`. -/
def Chain.push_value (c : Chain) (v : Q) : Except ChainErr Chain :=
  match c.push_value_base v with
  | .error e => .error e
  | .ok c1 =>
    if c1.is_branch_ctx then
      .ok { c1 with branch_position := c1.branch_position.addN 8 }
    else .ok c1

/-- A consecutive run of builder pushes (each source `push_gadget` /
`push_constant` / `push_value` call contributes one element, in source
order; `push_gadget` resolves its key through the catalog — every key the
source pushes is registered in its offset maps — and `push_constant`
wraps the number, so both come down to `push_value`). -/
def Chain.pushSeq (c : Chain) : List Q → Except ChainErr Chain
  | [] => .ok c
  | v :: vs =>
    match c.push_value v with
    | .error e => .error e
    | .ok c1 => c1.pushSeq vs

/-- Modelled from the spec: `ChainBase.push_gadget` — resolves the key via
the catalog and appends its address. -/
def Chain.push_gadget (c : Chain) (g : Gadget) : Except ChainErr Chain :=
  c.push_value (Q.gadget g)

/-- Modelled from the spec: `ChainBase.push_constant` — appends an 8-byte
constant. -/
def Chain.push_constant (c : Chain) (n : Int) : Except ChainErr Chain :=
  c.push_value (Q.cst n)

/-- The `pop <reg>; ret` gadget loading call argument `i` (System V
register order `rdi, rsi, rdx, rcx, r8, r9`). -/
def argGadget : Nat → Gadget
  | 0 => .popRdi
  | 1 => .popRsi
  | 2 => .popRdx
  | 3 => .popRcx
  | 4 => .popR8
  | _ => .popR9

/-- The interleaved `pop-register; argument` push sequence for a call's
argument list, starting at argument index `i`. -/
def argPushes : Nat → List Q → List Q
  | _, [] => []
  | i, a :: as => Q.gadget (argGadget i) :: a :: argPushes (i + 1) as

/-- Modelled from the spec: `ChainBase.push_call` — "appends a sequence
that loads up to six arguments into the calling convention's registers
(in a fixed, convention-defined order) via pop-register; return gadgets,
then appends `addr` as the next instruction pointer.  Fails with
`TooManyArgumentsError` beyond the convention's register budget." -/
def Chain.push_call (c : Chain) (addr : Q) (args : List Q) :
    Except ChainErr Chain :=
  if 6 < args.length then .error .tooManyArgs
  else
    match c.pushSeq (argPushes 0 args) with
    | .error e => .error e
    | .ok c1 => c1.push_value addr

/-- Modelled from the spec: `ChainBase.push_syscall` — "resolves `name` to
its syscall number, loads it into the syscall-number register, loads
arguments identically to `push_call`, then appends the syscall-trampoline
gadget".  The name-to-number table is built at session initialization
(`init_syscall_array`, also outside src/), so the operation takes the
resolved number. -/
def Chain.push_syscall (c : Chain) (num : Nat) (args : List Q) :
    Except ChainErr Chain :=
  if 6 < args.length then .error .tooManyArgs
  else
    match c.pushSeq (Q.gadget .popRax :: Q.cst num :: argPushes 0 args) with
    | .error e => .error e
    | .ok c1 => c1.push_value (Q.sysTrampoline num)

/-- Source `Chain803Base.push_end` (lines 287-289): appends the `rop_epilogue`
(`'leave; ret'`). -/
def Chain.push_end (c : Chain) : Except ChainErr Chain :=
  c.push_gadget .leaveRet

/-- Source `Chain803Base.check_is_branching` (lines 291-295). -/
def Chain.check_is_branching (c : Chain) : Except ChainErr Unit :=
  if c.is_branch_ctx then .error .stillBranching else .ok ()

/-- Modelled from the spec: `ChainBase.check_stale` — reusing a chain that
already ran without cleaning it is a usage error. -/
def Chain.check_stale (c : Chain) : Except ChainErr Unit :=
  if c.is_stale then .error .staleChain else .ok ()

/-- Modelled from the spec: `ChainBase.check_is_empty` — running an empty
chain is a usage error. -/
def Chain.check_is_empty (c : Chain) : Except ChainErr Unit :=
  if c.position = 0 then .error .emptyChain else .ok ()

/-- Source `Chain803Base._clean_branch_ctx` (lines 305-311), exactly as written in
the source: note it assigns `is_branch_ctx = true` and `delta_slot = true`
(not `false` / `null`). -/
def Chain.clean_branch_ctx (c : Chain) : Chain :=
  { c with is_branch_ctx := true,
           branch_position := .null,
           delta_slot := .bool true,
           rsp_slot := .null,
           rsp_position := .null }

/-- Modelled from the spec: `ChainBase.clean` — "`clean()` resets
`position` to 0 ... it does not reallocate the buffer" and "`is_stale` is
false" afterwards. -/
def Chain.clean_base (c : Chain) : Chain :=
  { c with position := 0, is_stale := false }

/-- Source `Chain803Base.clean` (lines 313-317): `super.clean()`,
`this._clean_branch_ctx()`, `this.is_saved = true`. -/
def Chain.clean (c : Chain) : Chain :=
  { c.clean_base.clean_branch_ctx with is_saved := true }

/-- The `Chain803Base` constructor (lines 260-276): `super()` leaves an
empty, non-stale chain (spec-modelled, with the capacity as parameter),
`this._clean_branch_ctx()` initializes the branch fields, and
`this.is_saved = true` (line 272). -/
def mkChain (stack_size : Nat) : Chain :=
  { (Chain.clean_branch_ctx
      { stack := fun _ => Q.cst 0,
        stack_size := stack_size,
        position := 0,
        is_stale := false,
        is_branch_ctx := true,
        branch_position := .null,
        delta_slot := .bool true,
        rsp_slot := .null,
        rsp_position := .null,
        is_saved := true }) with is_saved := true }

/-- Source `start_branch` pushes before the delta placeholder is recorded
(source lines 337-358): flag computation and `rax = *flag_addr`. -/
def sbSeq1 : List Q :=
  [Q.gadget .popRcx, Q.cst (-1), Q.gadget .negRax,
   Q.gadget .popRsi, Q.cst 0, Q.gadget .adcEsiEsi,
   Q.gadget .popRdi, Q.flagAddr, Q.gadget .movQwordRdiRsi,
   Q.gadget .popRax, Q.flagAddr, Q.gadget .movRaxQwordRax,
   Q.gadget .popRcx]

/-- Source `start_branch` pushes between the delta placeholder and the rsp
placeholder (lines 361-375): the delta dummy, `rax = -rax & rcx`,
`*flag_addr = rax`, and the `pop rcx` preceding the rsp dummy. -/
def sbSeq2 : List Q :=
  [Q.cst 0, Q.gadget .negRaxAndRaxRcx,
   Q.gadget .popRdi, Q.flagAddr, Q.gadget .movQwordRdiRax,
   Q.gadget .popRcx]

/-- Source `start_branch` pushes right after the rsp placeholder is recorded
(lines 377-379): the rsp dummy and `pop rsi`. -/
def sbSeq3 : List Q := [Q.cst 0, Q.gadget .popRsi]

/-- Source `start_branch` pushes after `branch_position`/`is_branch_ctx` are
set (lines 386-422): rsp arithmetic, reload of the flag, the pivot
through the `jmp_target` dispatch table, and the padding constant. -/
def sbSeq4 : List Q :=
  [Q.gadget .addRcxRsiAndRdxRcxOrRaxRdx, Q.gadget .movRdxRcx,
   Q.gadget .popRax, Q.flagAddr, Q.gadget .movRaxQwordRax,
   Q.gadget .addRaxRdx,
   Q.gadget .popRdi, Q.flagAddr, Q.gadget .movQwordRdiRax,
   Q.gadget .popRcx, Q.cst 0, Q.gadget .movRdxRaxXorEaxShlRdxCl,
   Q.gadget .popRax, Q.jmpTargetAddr, Q.gadget .popRdiJmpRax50,
   Q.cst 0]

/-- Source `Chain803Base.start_branch` (lines 328-426). -/
def Chain.start_branch (c : Chain) : Except ChainErr Chain :=
  if c.is_branch_ctx then .error .alreadyBranching
  else do
    let c ← c.pushSeq sbSeq1
    let c : Chain := { c with delta_slot := JVal.num (c.position : Int) }
    let c ← c.pushSeq sbSeq2
    let c : Chain := { c with rsp_slot := JVal.num (c.position : Int) }
    let c ← c.pushSeq sbSeq3
    let c ← c.push_value (Q.stackAddr (c.position + 8))
    let c : Chain := { c with branch_position := JVal.num 0,
                              is_branch_ctx := true }
    let c ← c.pushSeq sbSeq4
    let c : Chain := { c with rsp_position := c.branch_position }
    pure { c with stack := write64 c.stack c.rsp_slot.toIdx
                             (Q.cst c.rsp_position.toNum) }

/-- Source `Chain803Base.end_branch` (lines 428-436): guard, then
`delta = this.branch_position - this.rsp_position`,
`rw.write64(this.stack, this.delta_slot, new Int(delta))`,
`this._clean_branch_ctx()`. -/
def Chain.end_branch (c : Chain) : Except ChainErr Chain :=
  if !c.is_branch_ctx then .error .notBranching
  else
    let delta : Int := c.branch_position.toNum - c.rsp_position.toNum
    .ok (Chain.clean_branch_ctx
          { c with stack := write64 c.stack c.delta_slot.toIdx (Q.cst delta) })

/-- Source `Chain803Base.push_save` (lines 439-445): guard on `is_saved`, then
`push_call(setjmp, jmp_buf_p)` and `this.is_saved = true`. -/
def Chain.push_save (c : Chain) : Except ChainErr Chain :=
  if c.is_saved then .error .restoreFirst
  else
    match c.push_call (Q.gadget .setjmp) [Q.jmpBufAddr 0] with
    | .error e => .error e
    | .ok c1 => .ok { c1 with is_saved := true }

/-- Source `push_restore` pushes after the rsp slot (lines 458-467): patch
`jmp_buf.rsp` (`jmp_buf_p + 0x39`) with the dummy just pushed, then patch
`jmp_buf.return_address` (`jmp_buf_p + 0x80`) with the `'ret'` gadget's
address. -/
def prSeq1 : List Q :=
  [Q.cst 0, Q.gadget .popRdi, Q.jmpBufAddr 0x39, Q.gadget .movQwordRdiRax,
   Q.gadget .popRax, Q.gadget .ret,
   Q.gadget .popRdi, Q.jmpBufAddr 0x80, Q.gadget .movQwordRdiRax]

/-- Source `Chain803Base.push_restore` (lines 449-479). -/
def Chain.push_restore (c : Chain) (is_force : Bool) : Except ChainErr Chain :=
  if !c.is_saved && !is_force then .error .saveFirst
  else do
    let c ← c.push_gadget .popRax
    let rsp_slot := c.position
    let c ← c.pushSeq prSeq1
    let c ← c.push_call (Q.gadget .longjmp) [Q.jmpBufAddr 0]
    let c ← c.pushSeq [Q.cst 0, Q.cst 0]
    let target_rsp := Q.stackAddr c.position
    pure { c with stack := write64 c.stack rsp_slot target_rsp,
                  is_saved := true }

/-- Source `Chain803Base.push_get_retval` (lines 481-485). -/
def Chain.push_get_retval (c : Chain) : Except ChainErr Chain := do
  let c ← c.push_gadget .popRdi
  let c ← c.push_value Q.retvalAddr
  c.push_gadget .movQwordRdiRax

/-- Source `Chain803.run` (lines 559-570): the three usage checks, then the
vtable overwrite, the `scrollLeft` trigger and the vtable restore.  A
thrown check aborts before any target event; the spec marks a chain stale
once it has run ("already run once without being cleaned"). -/
def Chain.run (c : Chain) : Except ChainErr (Chain × List TargetEvent) :=
  match c.check_stale with
  | .error e => .error e
  | .ok _ =>
    match c.check_is_empty with
    | .error e => .error e
    | .ok _ =>
      match c.check_is_branching with
      | .error e => .error e
      | .ok _ =>
        .ok ({ c with is_stale := true },
             [.setFakeVtable, .triggerScrollLeft, .restoreVtable])

/-- Source `Chain803Base.call` (lines 487-496): requires an empty chain, then
`push_call`, `push_get_retval`, `push_end`, `run`, `clean`. -/
def Chain.call (c : Chain) (addr : Q) (args : List Q) :
    Except ChainErr (Chain × List TargetEvent) :=
  if c.position ≠ 0 then .error .needEmptyChain
  else do
    let c ← c.push_call addr args
    let c ← c.push_get_retval
    let c ← c.push_end
    let (c, evs) ← c.run
    pure (c.clean, evs)

/-- Source `Chain803Base.syscall` (lines 498-507): same protocol with
`push_syscall`. -/
def Chain.syscall (c : Chain) (num : Nat) (args : List Q) :
    Except ChainErr (Chain × List TargetEvent) :=
  if c.position ≠ 0 then .error .needEmptyChain
  else do
    let c ← c.push_syscall num args
    let c ← c.push_get_retval
    let c ← c.push_end
    let (c, evs) ← c.run
    pure (c.clean, evs)

/-- Did the operation complete without throwing? -/
def okOf {α : Type} : Except ChainErr α → Bool
  | .ok _ => true
  | .error _ => false

/-- The cumulative effect on the buffer of a consecutive run of pushes
starting at offset `p`. -/
def writeSeq (buf : Nat → Q) (p : Nat) : List Q → Nat → Q
  | [] => buf
  | v :: vs => writeSeq (write64 buf p v) (p + 8) vs

/-- Source `branch_position` after `n` further pushes inside a branch context
(`n` JS `+= 8` steps). -/
def JVal.bump (v : JVal) : Nat → JVal
  | 0 => v
  | n + 1 => .num (v.toNum + 8 * (n + 1))

/-- A chain state whose branch context is closed (`is_branch_ctx` false),
as the specified `clean()` would produce it: used to exercise the
branch-emulation and invocation paths that the shipped
`_clean_branch_ctx` makes unreachable. -/
def branchReadyChain : Chain := { mkChain 4096 with is_branch_ctx := false }

/-- The buffer contents produced by one `push_restore` starting at the
chain's current position: the `pop rax` gadget, the nine `prSeq1` values,
the `push_call(longjmp, jmp_buf_p)` triple, the two padding constants, and
the retro-active patch of the rsp dummy slot (entry position + 8) with
`stack_addr` + the position right after the padding. -/
def prStack (c : Chain) : Nat → Q :=
  write64
    (writeSeq
      (write64
        (writeSeq
          (writeSeq (write64 c.stack c.position (Q.gadget .popRax))
            (c.position + 8) prSeq1)
          (c.position + 80) [Q.gadget .popRdi, Q.jmpBufAddr 0])
        (c.position + 96) (Q.gadget .longjmp))
      (c.position + 104) [Q.cst 0, Q.cst 0])
    (c.position + 8) (Q.stackAddr (c.position + 120))

/-- A concrete `Int64` (little endian: the value `0x80000000_0000ffff`),
chosen so that adding `i64b` forces carry propagation and overflows the
high bit. -/
def i64a : Int64 := ⟨[0xff, 0xff, 0, 0, 0, 0, 0, 0x80]⟩

/-- A concrete `Int64` (the value `0x80000000_00ff0001`). -/
def i64b : Int64 := ⟨[0x01, 0, 0xff, 0, 0, 0, 0, 0x80]⟩

/-- A one-push conditional body used to exercise the branch emulator on a
concrete chain. -/
def c4Body : List Q := [Q.cst 5]

/-- The chain state after `start_branch()` on `branchReadyChain`. -/
def c4s1 : Chain :=
  match branchReadyChain.start_branch with
  | .ok c => c
  | .error _ => branchReadyChain

/-- The chain state after additionally pushing `c4Body`. -/
def c4s2 : Chain :=
  match c4s1.pushSeq c4Body with
  | .ok c => c
  | .error _ => c4s1

/-- The chain state after the closing `end_branch()`. -/
def c4s3 : Chain :=
  match c4s2.end_branch with
  | .ok c => c
  | .error _ => c4s2

/-- The chain state after `push_restore(false)` on a freshly constructed
chain. -/
def c8s : Chain :=
  match (mkChain 4096).push_restore false with
  | .ok c => c
  | .error _ => mkChain 4096

/-! ## Helper lemmas about the buffer and the push primitives -/

theorem write64_same (buf : Nat → Q) (off : Nat) (v : Q) :
    write64 buf off v off = v := by
  simp [write64]

theorem write64_other (buf : Nat → Q) (off : Nat) (v : Q) (i : Nat)
    (h : i ≠ off) : write64 buf off v i = buf i := by
  simp [write64, h]

theorem writeSeq_below (vs : List Q) (buf : Nat → Q) (p i : Nat)
    (h : i < p) : writeSeq buf p vs i = buf i := by
  induction vs generalizing buf p with
  | nil => rfl
  | cons v vs ih =>
    rw [writeSeq, ih _ _ (by omega), write64_other _ _ _ _ (by omega)]

theorem writeSeq_at (vs : List Q) (buf : Nat → Q) (p k : Nat)
    (hk : k < vs.length) :
    writeSeq buf p vs (p + 8 * k) = vs.getD k (Q.cst 0) := by
  induction vs generalizing buf p k with
  | nil => simp at hk
  | cons v vs ih =>
    match k with
    | 0 =>
      simp only [Nat.mul_zero, Nat.add_zero]
      rw [writeSeq, writeSeq_below _ _ _ _ (by omega), write64_same]
      rfl
    | k + 1 =>
      have harith : p + 8 * (k + 1) = (p + 8) + 8 * k := by omega
      rw [writeSeq, harith, ih _ _ _ (by simpa using hk)]
      rfl

theorem writeSeq_at' (vs : List Q) (buf : Nat → Q) (p i k : Nat)
    (hk : k < vs.length) (hi : i = p + 8 * k) :
    writeSeq buf p vs i = vs.getD k (Q.cst 0) := by
  subst hi
  exact writeSeq_at vs buf p k hk

theorem JVal.toNum_num (n : Int) : (JVal.num n).toNum = n := rfl

theorem JVal.toNum_bump (v : JVal) (n : Nat) :
    (v.bump n).toNum = v.toNum + 8 * n := by
  cases n with
  | zero =>
    show v.toNum = v.toNum + 8 * (0 : Nat)
    simp
  | succ n => rfl

theorem JVal.bump_shift (v : JVal) (n : Nat) :
    JVal.bump (.num (v.toNum + 8)) n = v.bump (n + 1) := by
  cases n with
  | zero =>
    show JVal.num (v.toNum + 8) = JVal.num (v.toNum + 8 * ((0 : Nat) + 1))
    norm_num
  | succ n =>
    show JVal.num ((JVal.num (v.toNum + 8)).toNum + 8 * (n + 1))
        = JVal.num (v.toNum + 8 * (n + 1 + 1))
    have hred : (JVal.num (v.toNum + 8)).toNum = v.toNum + 8 := rfl
    rw [hred]
    congr 1
    ring

theorem push_value_ok_false (c : Chain) (v : Q)
    (hb : c.is_branch_ctx = false) (h : c.position + 8 ≤ c.stack_size) :
    c.push_value v = .ok { c with
      stack := write64 c.stack c.position v,
      position := c.position + 8 } := by
  rw [Chain.push_value, Chain.push_value_base, if_neg (by omega)]
  simp [hb]

theorem push_value_ok_true (c : Chain) (v : Q)
    (hb : c.is_branch_ctx = true) (h : c.position + 8 ≤ c.stack_size) :
    c.push_value v = .ok { c with
      stack := write64 c.stack c.position v,
      position := c.position + 8,
      branch_position := c.branch_position.addN 8 } := by
  rw [Chain.push_value, Chain.push_value_base, if_neg (by omega)]
  simp [hb]

theorem pushSeq_ok_false (vs : List Q) (c : Chain)
    (hb : c.is_branch_ctx = false)
    (h : c.position + 8 * vs.length ≤ c.stack_size) :
    c.pushSeq vs = .ok { c with
      stack := writeSeq c.stack c.position vs,
      position := c.position + 8 * vs.length } := by
  induction vs generalizing c with
  | nil =>
    show Except.ok c = _
    rw [writeSeq]
    simp
  | cons v vs ih =>
    rw [Chain.pushSeq, push_value_ok_false _ _ hb (by simp at h; omega)]
    show Chain.pushSeq _ vs = _
    rw [ih _ (by simpa using hb) (by simp at h ⊢; omega)]
    simp only [Except.ok.injEq, Chain.mk.injEq, List.length_cons]
    and_intros <;> first | trivial | omega

theorem pushSeq_ok_true (vs : List Q) (c : Chain)
    (hb : c.is_branch_ctx = true)
    (h : c.position + 8 * vs.length ≤ c.stack_size) :
    c.pushSeq vs = .ok { c with
      stack := writeSeq c.stack c.position vs,
      position := c.position + 8 * vs.length,
      branch_position := c.branch_position.bump vs.length } := by
  induction vs generalizing c with
  | nil =>
    show Except.ok c = _
    rw [writeSeq]
    simp [JVal.bump]
  | cons v vs ih =>
    rw [Chain.pushSeq, push_value_ok_true _ _ hb (by simp at h; omega)]
    show Chain.pushSeq _ vs = _
    rw [ih _ (by simpa using hb) (by simp at h ⊢; omega)]
    simp only [Except.ok.injEq, Chain.mk.injEq, List.length_cons, JVal.addN]
    and_intros <;>
      first
        | trivial
        | omega
        | exact JVal.bump_shift c.branch_position vs.length

theorem sbSeq1_length : sbSeq1.length = 13 := rfl

theorem sbSeq2_length : sbSeq2.length = 6 := rfl

theorem sbSeq3_length : sbSeq3.length = 2 := rfl

theorem sbSeq4_length : sbSeq4.length = 16 := rfl

theorem prSeq1_length : prSeq1.length = 9 := rfl

/-- Closed form of a successful `start_branch`: 38 pushes (304 bytes), the
delta placeholder at entry position + 104, the rsp placeholder at entry
position + 152, and a branch byte-counter already at 128 (the 16 pushes
emitted after the counter starts). -/
theorem start_branch_ok (c : Chain) (hb : c.is_branch_ctx = false)
    (h : c.position + 304 ≤ c.stack_size) :
    ∃ B, c.start_branch = .ok { c with
      stack := B,
      position := c.position + 304,
      is_branch_ctx := true,
      branch_position := .num 128,
      delta_slot := .num ((c.position + 104 : Nat) : Int),
      rsp_slot := .num ((c.position + 152 : Nat) : Int),
      rsp_position := .num 128 } := by
  apply Exists.intro
  rw [Chain.start_branch, if_neg (by simp [hb])]
  rw [pushSeq_ok_false sbSeq1 _ (by exact hb)
      (by rw [sbSeq1_length]; show c.position + 8 * 13 ≤ c.stack_size; omega)]
  simp only [bind, Except.bind, sbSeq1_length]
  rw [pushSeq_ok_false sbSeq2 _ (by exact hb)
      (by rw [sbSeq2_length]
          show c.position + 8 * 13 + 8 * 6 ≤ c.stack_size
          omega)]
  simp only [bind, Except.bind, sbSeq2_length]
  rw [pushSeq_ok_false sbSeq3 _ (by exact hb)
      (by rw [sbSeq3_length]
          show c.position + 8 * 13 + 8 * 6 + 8 * 2 ≤ c.stack_size
          omega)]
  simp only [bind, Except.bind, sbSeq3_length]
  rw [push_value_ok_false _ _ (by exact hb)
      (by show c.position + 8 * 13 + 8 * 6 + 8 * 2 + 8 ≤ c.stack_size
          omega)]
  simp only [bind, Except.bind]
  rw [pushSeq_ok_true sbSeq4 _ (by rfl)
      (by rw [sbSeq4_length]
          show c.position + 8 * 13 + 8 * 6 + 8 * 2 + 8 + 8 * 16 ≤ c.stack_size
          omega)]
  simp only [bind, Except.bind, sbSeq4_length, pure, Except.pure]
  simp only [Except.ok.injEq, Chain.mk.injEq]
  and_intros <;> first | rfl | omega | decide

theorem push_call_one_false (c : Chain) (addr a : Q)
    (hb : c.is_branch_ctx = false) (h : c.position + 24 ≤ c.stack_size) :
    c.push_call addr [a] = .ok { c with
      stack := write64 (writeSeq c.stack c.position [Q.gadget .popRdi, a])
                 (c.position + 8 * 2) addr,
      position := c.position + 8 * 2 + 8 } := by
  rw [Chain.push_call, if_neg (by norm_num)]
  have hargs : argPushes 0 [a] = [Q.gadget .popRdi, a] := rfl
  rw [hargs, pushSeq_ok_false [Q.gadget .popRdi, a] c hb
    (by show c.position + 8 * 2 ≤ c.stack_size; omega)]
  show Chain.push_value _ addr = _
  rw [push_value_ok_false _ _ (by exact hb)
    (by show c.position + 8 * 2 + 8 ≤ c.stack_size; omega)]
  norm_num

theorem push_call_one_true (c : Chain) (addr a : Q)
    (hb : c.is_branch_ctx = true) (h : c.position + 24 ≤ c.stack_size) :
    c.push_call addr [a] = .ok { c with
      stack := write64 (writeSeq c.stack c.position [Q.gadget .popRdi, a])
                 (c.position + 8 * 2) addr,
      position := c.position + 8 * 2 + 8,
      branch_position := (c.branch_position.bump 2).addN 8 } := by
  rw [Chain.push_call, if_neg (by norm_num)]
  have hargs : argPushes 0 [a] = [Q.gadget .popRdi, a] := rfl
  rw [hargs, pushSeq_ok_true [Q.gadget .popRdi, a] c hb
    (by show c.position + 8 * 2 ≤ c.stack_size; omega)]
  show Chain.push_value _ addr = _
  rw [push_value_ok_true _ _ (by exact hb)
    (by show c.position + 8 * 2 + 8 ≤ c.stack_size; omega)]
  norm_num

/-- C4: for every branch: if `start_branch()` succeeds (the branch context
was closed and the 304 bytes of branch prologue fit) and the caller then
appends a conditional body totalling `8 * body.length` bytes through the
builder's push operations before calling `end_branch()`, the value
`end_branch()` writes into the delta placeholder slot (recorded by
`start_branch()` at entry position + 104) is exactly the body's byte
count, regardless of which values make up the body; in particular an
empty body yields a delta of 0. -/
theorem branch_delta_exact (c : Chain) (body : List Q)
    (hb : c.is_branch_ctx = false)
    (h : c.position + 304 + 8 * body.length ≤ c.stack_size) :
    ∃ c1 c2 c3,
      c.start_branch = .ok c1 ∧
      c1.pushSeq body = .ok c2 ∧
      c2.end_branch = .ok c3 ∧
      c1.delta_slot = .num ((c.position + 104 : Nat) : Int) ∧
      c3.stack (c.position + 104) = Q.cst (8 * (body.length : Int)) ∧
      (body = [] → c3.stack (c.position + 104) = Q.cst 0) := by
  obtain ⟨B, e1⟩ := start_branch_ok c hb (by omega)
  have e2 := pushSeq_ok_true body
    { c with
      stack := B,
      position := c.position + 304,
      is_branch_ctx := true,
      branch_position := .num 128,
      delta_slot := .num ((c.position + 104 : Nat) : Int),
      rsp_slot := .num ((c.position + 152 : Nat) : Int),
      rsp_position := .num 128 } rfl
    (by show c.position + 304 + 8 * body.length ≤ c.stack_size; omega)
  have e3 : Chain.end_branch { c with
      stack := writeSeq B (c.position + 304) body,
      position := c.position + 304 + 8 * body.length,
      is_branch_ctx := true,
      branch_position := (JVal.num 128).bump body.length,
      delta_slot := .num ((c.position + 104 : Nat) : Int),
      rsp_slot := .num ((c.position + 152 : Nat) : Int),
      rsp_position := .num 128 }
      = .ok (Chain.clean_branch_ctx { c with
          stack := write64 (writeSeq B (c.position + 304) body)
                     (c.position + 104) (Q.cst (8 * (body.length : Int))),
          position := c.position + 304 + 8 * body.length,
          is_branch_ctx := true,
          branch_position := (JVal.num 128).bump body.length,
          delta_slot := .num ((c.position + 104 : Nat) : Int),
          rsp_slot := .num ((c.position + 152 : Nat) : Int),
          rsp_position := .num 128 }) := by
    rw [Chain.end_branch]
    show Except.ok _ = _
    simp only [JVal.toIdx, JVal.toNum_num, JVal.toNum_bump, Int.toNat_natCast,
      add_sub_cancel_left]
  refine ⟨_, _, _, e1, e2, e3, rfl, ?_, ?_⟩
  · show (write64 (writeSeq B (c.position + 304) body)
      (c.position + 104) (Q.cst (8 * (body.length : Int))))
      (c.position + 104) = _
    rw [write64_same]
  · intro hbody
    subst hbody
    show (write64 (writeSeq B (c.position + 304) [])
      (c.position + 104) (Q.cst (8 * (([] : List Q).length : Int))))
      (c.position + 104) = _
    rw [write64_same]
    norm_num

/-- Closed form of a `push_restore` that passes its guard: 15 pushes
(120 bytes) laid out as `prStack`, with `is_saved` left true. -/
theorem push_restore_ok (c : Chain) (f : Bool)
    (hs : c.is_saved = true ∨ f = true)
    (h : c.position + 120 ≤ c.stack_size) :
    ∃ bp, c.push_restore f = .ok { c with
      stack := prStack c,
      position := c.position + 120,
      branch_position := bp,
      is_saved := true } := by
  cases hbc : c.is_branch_ctx
  case false =>
    apply Exists.intro
    rw [Chain.push_restore, if_neg (by rcases hs with h1 | h1 <;> simp [h1])]
    rw [Chain.push_gadget]
    rw [push_value_ok_false _ _ (by exact hbc)
      (by show c.position + 8 ≤ c.stack_size; omega)]
    simp only [bind, Except.bind]
    rw [pushSeq_ok_false prSeq1 _ (by exact hbc)
      (by rw [prSeq1_length]; show c.position + 8 + 8 * 9 ≤ c.stack_size; omega)]
    simp only [bind, Except.bind, prSeq1_length]
    rw [push_call_one_false _ _ _ (by exact hbc)
      (by show c.position + 8 + 8 * 9 + 24 ≤ c.stack_size; omega)]
    simp only [bind, Except.bind]
    rw [pushSeq_ok_false [Q.cst 0, Q.cst 0] _ (by exact hbc)
      (by show c.position + 8 + 8 * 9 + 8 * 2 + 8 + 8 * 2 ≤ c.stack_size
          omega)]
    simp only [bind, Except.bind, pure, Except.pure, List.length_cons,
      List.length_nil]
    simp only [Except.ok.injEq, Chain.mk.injEq]
    and_intros <;> trivial
  case true =>
    apply Exists.intro
    rw [Chain.push_restore, if_neg (by rcases hs with h1 | h1 <;> simp [h1])]
    rw [Chain.push_gadget]
    rw [push_value_ok_true _ _ (by exact hbc)
      (by show c.position + 8 ≤ c.stack_size; omega)]
    simp only [bind, Except.bind]
    rw [pushSeq_ok_true prSeq1 _ (by exact hbc)
      (by rw [prSeq1_length]; show c.position + 8 + 8 * 9 ≤ c.stack_size; omega)]
    simp only [bind, Except.bind, prSeq1_length]
    rw [push_call_one_true _ _ _ (by exact hbc)
      (by show c.position + 8 + 8 * 9 + 24 ≤ c.stack_size; omega)]
    simp only [bind, Except.bind]
    rw [pushSeq_ok_true [Q.cst 0, Q.cst 0] _ (by exact hbc)
      (by show c.position + 8 + 8 * 9 + 8 * 2 + 8 + 8 * 2 ≤ c.stack_size
          omega)]
    simp only [bind, Except.bind, pure, Except.pure, List.length_cons,
      List.length_nil]
    simp only [Except.ok.injEq, Chain.mk.injEq]
    and_intros <;> trivial

theorem prStack_at_8 (c : Chain) :
    prStack c (c.position + 8) = Q.stackAddr (c.position + 120) := by
  rw [prStack, write64_same]

theorem prStack_at_48 (c : Chain) :
    prStack c (c.position + 48) = Q.gadget .ret := by
  rw [prStack, write64_other _ _ _ _ (by omega),
    writeSeq_below _ _ _ _ (by omega), write64_other _ _ _ _ (by omega),
    writeSeq_below _ _ _ _ (by omega),
    writeSeq_at' prSeq1 _ _ _ 5 (by rw [prSeq1_length]; omega) (by omega)]
  rfl

theorem prStack_at_64 (c : Chain) :
    prStack c (c.position + 64) = Q.jmpBufAddr 0x80 := by
  rw [prStack, write64_other _ _ _ _ (by omega),
    writeSeq_below _ _ _ _ (by omega), write64_other _ _ _ _ (by omega),
    writeSeq_below _ _ _ _ (by omega),
    writeSeq_at' prSeq1 _ _ _ 7 (by rw [prSeq1_length]; omega) (by omega)]
  rfl

theorem prStack_at_96 (c : Chain) :
    prStack c (c.position + 96) = Q.gadget .longjmp := by
  rw [prStack, write64_other _ _ _ _ (by omega),
    writeSeq_below _ _ _ _ (by omega), write64_same]

theorem prStack_at_104 (c : Chain) :
    prStack c (c.position + 104) = Q.cst 0 := by
  rw [prStack, write64_other _ _ _ _ (by omega),
    writeSeq_at' [Q.cst 0, Q.cst 0] _ _ _ 0 (by norm_num) (by omega)]
  rfl

theorem prStack_at_112 (c : Chain) :
    prStack c (c.position + 112) = Q.cst 0 := by
  rw [prStack, write64_other _ _ _ _ (by omega),
    writeSeq_at' [Q.cst 0, Q.cst 0] _ _ _ 1 (by norm_num) (by omega)]
  rfl

/-- C8: every `push_restore()` that runs (forced or not) appends exactly
120 bytes: after the `longjmp` invocation (at entry position + 96) come
exactly two 8-byte padding constants (positions + 104 and + 112); the rsp
dummy slot reserved at entry position + 8 is patched with
`stack_addr` + the builder position immediately after that padding
(entry + 120); and the checkpoint region's resume-address field
(`jmp_buf_p + 0x80`, pushed at entry + 64) is patched with the address of
the `'ret'` gadget (pushed at entry + 48), so execution resumed from the
checkpoint continues at the content appended after `push_restore()`. -/
theorem push_restore_layout (c : Chain) (f : Bool)
    (hs : c.is_saved = true ∨ f = true)
    (h : c.position + 120 ≤ c.stack_size) :
    ∃ c', c.push_restore f = .ok c' ∧
      c'.position = c.position + 120 ∧
      c'.is_saved = true ∧
      c'.stack (c.position + 96) = Q.gadget .longjmp ∧
      c'.stack (c.position + 104) = Q.cst 0 ∧
      c'.stack (c.position + 112) = Q.cst 0 ∧
      c'.stack (c.position + 8) = Q.stackAddr (c.position + 120) ∧
      c'.stack (c.position + 48) = Q.gadget .ret ∧
      c'.stack (c.position + 64) = Q.jmpBufAddr 0x80 := by
  obtain ⟨bp, E⟩ := push_restore_ok c f hs h
  exact ⟨_, E, rfl, rfl, prStack_at_96 c, prStack_at_104 c, prStack_at_112 c,
    prStack_at_8 c, prStack_at_48 c, prStack_at_64 c⟩

/-- Witness for `branch_delta_exact`: on a branch-ready chain at position
0, a one-push (8-byte) body yields a patched delta of 8 in the slot at
offset 104. -/
theorem branch_delta_exact_witness :
    branchReadyChain.start_branch = .ok c4s1 ∧
    c4s1.pushSeq c4Body = .ok c4s2 ∧
    c4s2.end_branch = .ok c4s3 ∧
    c4s1.delta_slot = .num 104 ∧
    c4s3.stack 104 = Q.cst 8 := by
  obtain ⟨c1, c2, c3, h1, h2, h3, hd, hs, he⟩ :=
    branch_delta_exact branchReadyChain c4Body rfl (by decide)
  have hc1 : c4s1 = c1 := by
    show (match branchReadyChain.start_branch with
      | .ok c => c
      | .error _ => branchReadyChain) = c1
    rw [h1]
  have hc2 : c4s2 = c2 := by
    show (match c4s1.pushSeq c4Body with
      | .ok c => c
      | .error _ => c4s1) = c2
    rw [hc1, h2]
  have hc3 : c4s3 = c3 := by
    show (match c4s2.end_branch with
      | .ok c => c
      | .error _ => c4s2) = c3
    rw [hc2, h3]
  refine ⟨?_, ?_, ?_, ?_, ?_⟩
  · rw [hc1]; exact h1
  · rw [hc1, hc2]; exact h2
  · rw [hc2, hc3]; exact h3
  · rw [hc1]; exact hd
  · rw [hc3]; exact hs

/-- Witness for `push_restore_layout`: `push_restore(false)` on a freshly
constructed chain (position 0, capacity 4096) lays out the longjmp call,
the two paddings, the patched rsp slot, and the resume-address patch at
the stated offsets. -/
theorem push_restore_layout_witness :
    (mkChain 4096).push_restore false = .ok c8s ∧
    c8s.position = 120 ∧
    c8s.is_saved = true ∧
    c8s.stack 96 = Q.gadget .longjmp ∧
    c8s.stack 104 = Q.cst 0 ∧
    c8s.stack 112 = Q.cst 0 ∧
    c8s.stack 8 = Q.stackAddr 120 ∧
    c8s.stack 48 = Q.gadget .ret ∧
    c8s.stack 64 = Q.jmpBufAddr 0x80 := by
  obtain ⟨c', E, hp, hsv, h96, h104, h112, h8, h48, h64⟩ :=
    push_restore_layout (mkChain 4096) false (Or.inl rfl) (by decide)
  have hc : c8s = c' := by
    show (match (mkChain 4096).push_restore false with
      | .ok c => c
      | .error _ => mkChain 4096) = c'
    rw [E]
  refine ⟨?_, ?_, ?_, ?_, ?_, ?_, ?_, ?_, ?_⟩ <;> rw [hc]
  exacts [E, hp, hsv, h96, h104, h112, h8, h48, h64]

/-- C7: `run()` raises a thrown error whenever the chain is stale, empty,
or still has an open branch context; the three checks execute before the
vtable overwrite and the trigger, so an error aborts `run()` with no
target-memory event (the `.error` branch of `Chain.run` carries no
`TargetEvent` list). -/
theorem run_guards (c : Chain)
    (h : c.is_stale = true ∨ c.position = 0 ∨ c.is_branch_ctx = true) :
    okOf c.run = false := by
  rw [Chain.run, Chain.check_stale, Chain.check_is_empty,
    Chain.check_is_branching]
  by_cases h1 : c.is_stale = true
  · simp [h1, okOf]
  · have h1' : c.is_stale = false := by simpa using h1
    by_cases h2 : c.position = 0
    · simp [h1', h2, okOf]
    · have h3 : c.is_branch_ctx = true := by
        rcases h with a | a | a
        · exact absurd a h1
        · exact absurd a h2
        · exact a
      simp [h1', h2, h3, okOf]

/-- Witness for `run_guards`: a freshly constructed chain is empty, and
`run()` on it indeed fails. -/
theorem run_guards_witness : okOf (mkChain 4096).run = false :=
  run_guards (mkChain 4096) (Or.inr (Or.inl rfl))

/-- C1 (code evaluation): immediately after `clean()` the position is 0 and
`is_stale` is false, but — because `_clean_branch_ctx` assigns
`is_branch_ctx = true` — `check_is_branching()` throws and a subsequent
`start_branch()` is refused. -/
theorem clean_bug_eval :
    (mkChain 4096).clean.position = 0 ∧
    (mkChain 4096).clean.is_stale = false ∧
    (mkChain 4096).clean.check_is_branching = .error .stillBranching ∧
    (mkChain 4096).clean.start_branch = .error .alreadyBranching :=
  ⟨rfl, rfl, rfl, rfl⟩

/-- C2 (code evaluation): on a freshly constructed chain, on which no
`push_save()` has ever been appended, `push_restore()` succeeds both
without and with the force flag, because the constructor initializes
`is_saved = true`. -/
theorem push_restore_unsaved_bug_eval :
    okOf ((mkChain 4096).push_restore false) = true ∧
    okOf ((mkChain 4096).push_restore true) = true :=
  ⟨rfl, rfl⟩

/-- C3 (code evaluation): `push_save()` throws `restore first before saving
again` on a freshly constructed chain, on a freshly cleaned chain, and
even right after a `push_restore()`: `is_saved` is set to `true` by the
constructor, by `clean()` and by `push_restore()`, so the guard
`if (this.is_saved)` always fires. -/
theorem push_save_bug_eval :
    (mkChain 4096).push_save = .error .restoreFirst ∧
    (mkChain 4096).clean.push_save = .error .restoreFirst ∧
    (match (mkChain 4096).push_restore false with
      | .ok c1 => c1.push_save
      | .error e => .error e) = .error .restoreFirst :=
  ⟨rfl, rfl, rfl⟩

/-- C5 (code evaluation): on a freshly constructed chain — no branch
context has ever been opened by `start_branch()` — `end_branch()` does not
raise (it computes a delta from the `null` fields and patches buffer
offset 1, the JS index coercion of `delta_slot = true`), while
`start_branch()` raises even though no branch is open. -/
theorem end_branch_bug_eval :
    okOf (mkChain 4096).end_branch = true ∧
    (mkChain 4096).start_branch = .error .alreadyBranching :=
  ⟨rfl, rfl⟩

/-- C6 (code evaluation): `call()` and `syscall()` on a freshly
constructed (empty) chain append their sequences and then fail inside
`run()` with `chain is still branching` (because `is_branch_ctx` is
initialized `true`), so `clean()` is never reached; on a non-empty chain
they raise the usage error before appending anything. -/
theorem call_bug_eval :
    (mkChain 4096).call (Q.cst 7) [] = .error .stillBranching ∧
    (mkChain 4096).syscall 24 [] = .error .stillBranching ∧
    Chain.call { mkChain 4096 with position := 8 } (Q.cst 7) []
      = .error .needEmptyChain :=
  ⟨rfl, rfl, rfl⟩

/-- C10: the `Int64` constructor validates its input at the public
interface: zero or more than two arguments throw `TypeError`; in the
two-argument form a non-number argument throws `TypeError` and an
argument that is negative or exceeds `0xffffffff` throws `RangeError`;
a one-argument non-`Int64` object whose `length` is not exactly 8 throws
`TypeError`. -/
theorem i64ctor_validation :
    (∀ args : List JsArg, args.length = 0 ∨ 2 < args.length →
        i64ctor args = .error .typeErr) ∧
    (∀ a b : JsArg, a.isNum = false ∨ b.isNum = false →
        i64ctor [a, b] = .error .typeErr) ∧
    (∀ lo hi : Int,
        0xffffffff < lo ∨ 0xffffffff < hi ∨ lo < 0 ∨ hi < 0 →
        i64ctor [.num lo, .num hi] = .error .rangeErr) ∧
    (∀ len : Nat, len ≠ 8 → i64ctor [.objArr len] = .error .typeErr) := by
  refine ⟨?_, ?_, ?_, ?_⟩
  · intro args hlen
    simp only [i64ctor]
    rw [if_pos (by omega)]
  · intro a b hab
    cases a <;> cases b <;> simp_all [i64ctor, JsArg.isNum]
  · intro lo hi hrange
    simp only [i64ctor]
    rw [if_neg (by norm_num)]
    show (if 0xffffffff < lo ∨ 0xffffffff < hi ∨ lo < 0 ∨ hi < 0 then
        (Except.error JsError.rangeErr)
      else strCase (hexLen hi.toNat + 8)) = Except.error JsError.rangeErr
    rw [if_pos hrange]
  · intro len hlen
    simp only [i64ctor]
    rw [if_neg (by norm_num)]
    show (if len = 8 then Except.ok () else Except.error JsError.typeErr)
        = Except.error JsError.typeErr
    rw [if_neg hlen]

/-- Witness for `i64ctor_validation` at concrete inputs: no arguments,
three arguments, a string first argument, a negative low half, and an
object of length 7. -/
theorem i64ctor_validation_witness :
    i64ctor [] = .error .typeErr ∧
    i64ctor [JsArg.num 1, JsArg.num 2, JsArg.num 3] = .error .typeErr ∧
    i64ctor [JsArg.str 4, JsArg.num 0] = .error .typeErr ∧
    i64ctor [JsArg.num (-1), JsArg.num 0] = .error .rangeErr ∧
    i64ctor [JsArg.objArr 7] = .error .typeErr := by
  obtain ⟨p1, p2, p3, p4⟩ := i64ctor_validation
  exact ⟨p1 [] (Or.inl rfl),
    p1 [JsArg.num 1, JsArg.num 2, JsArg.num 3] (Or.inr (by norm_num)),
    p2 (JsArg.str 4) (JsArg.num 0) (Or.inl rfl),
    p3 (-1) 0 (Or.inr (Or.inr (Or.inl (by norm_num)))),
    p4 7 (by norm_num)⟩

/-! ## Int64 arithmetic lemmas -/

theorem valB_lt (l : List Nat) (h : bytesWF l) : valB l < 256 ^ l.length := by
  induction l with
  | nil => simp [valB]
  | cons b bs ih =>
    have hb : b < 256 := h b (by simp)
    have hbs : bytesWF bs := fun x hx => h x (by simp [hx])
    have hv := ih hbs
    rw [valB, List.length_cons, pow_succ]
    set M := 256 ^ bs.length
    omega

theorem addB_length (as : List Nat) : ∀ (bs : List Nat) (cin : Nat),
    as.length = bs.length → (addB as bs cin).length = as.length := by
  induction as with
  | nil => intro bs cin _; rfl
  | cons a as ih =>
    intro bs cin h
    cases bs with
    | nil => simp at h
    | cons b bs =>
      rw [addB, List.length_cons, List.length_cons, ih bs _ (by simpa using h)]

theorem addB_wf (as : List Nat) : ∀ (bs : List Nat) (cin : Nat),
    bytesWF (addB as bs cin) := by
  induction as with
  | nil =>
    intro bs cin b hb
    simp [show addB [] bs cin = [] from rfl] at hb
  | cons a as ih =>
    intro bs cin
    cases bs with
    | nil =>
      intro b hb
      simp [show addB (a :: as) [] cin = [] from rfl] at hb
    | cons b bs =>
      intro x hx
      rw [addB] at hx
      rcases List.mem_cons.mp hx with h1 | h1
      · subst h1; exact Nat.mod_lt _ (by norm_num)
      · exact ih bs _ x h1

theorem subB_length (as : List Nat) : ∀ (bs : List Nat) (bin : Nat),
    as.length = bs.length → (subB as bs bin).length = as.length := by
  induction as with
  | nil => intro bs bin _; rfl
  | cons a as ih =>
    intro bs bin h
    cases bs with
    | nil => simp at h
    | cons b bs =>
      rw [subB, List.length_cons, List.length_cons, ih bs _ (by simpa using h)]

theorem subB_wf (as : List Nat) : ∀ (bs : List Nat) (bin : Nat),
    bytesWF (subB as bs bin) := by
  induction as with
  | nil =>
    intro bs bin b hb
    simp [show subB [] bs bin = [] from rfl] at hb
  | cons a as ih =>
    intro bs bin
    cases bs with
    | nil =>
      intro b hb
      simp [show subB (a :: as) [] bin = [] from rfl] at hb
    | cons b bs =>
      intro x hx
      rw [subB] at hx
      rcases List.mem_cons.mp hx with h1 | h1
      · subst h1; exact Nat.mod_lt _ (by norm_num)
      · exact ih bs _ x h1

/-- Ripple-carry correctness of the byte-wise addition loop: its value is
the sum modulo `256 ^ length`. -/
theorem addB_val (as : List Nat) : ∀ (bs : List Nat) (cin : Nat),
    as.length = bs.length → bytesWF as → bytesWF bs → cin ≤ 1 →
    valB (addB as bs cin) = (valB as + valB bs + cin) % 256 ^ as.length := by
  induction as with
  | nil =>
    intro bs cin h _ _ hc
    cases bs with
    | nil => simp [addB, valB]; omega
    | cons b bs => simp at h
  | cons a as ih =>
    intro bs cin h hwa hwb hc
    cases bs with
    | nil => simp at h
    | cons b bs =>
      have ha : a < 256 := hwa a (by simp)
      have hb : b < 256 := hwb b (by simp)
      have hwa' : bytesWF as := fun x hx => hwa x (by simp [hx])
      have hwb' : bytesWF bs := fun x hx => hwb x (by simp [hx])
      have hlen : as.length = bs.length := by simpa using h
      rw [addB, valB, valB, valB,
        ih bs _ hlen hwa' hwb' (by split <;> omega),
        List.length_cons, pow_succ]
      set M := 256 ^ as.length with hM
      have hMpos : 0 < M := pow_pos (by norm_num) _
      set A := valB as
      set B := valB bs
      set carry := if 255 < a + b + cin then 1 else 0 with hcarry
      have h1 : (256 : Nat) * ((A + B + carry) % M)
          ≡ 256 * (A + B + carry) [MOD 256 * M] :=
        Nat.ModEq.mul_left' _ (Nat.mod_modEq _ M)
      have h2 : (a + b + cin) % 256 + 256 * ((A + B + carry) % M)
          ≡ (a + b + cin) % 256 + 256 * (A + B + carry) [MOD 256 * M] :=
        h1.add_left _
      have h3 : (a + b + cin) % 256 + 256 * (A + B + carry)
          = a + 256 * A + (b + 256 * B) + cin := by
        have hdm := Nat.mod_add_div (a + b + cin) 256
        rw [hcarry]
        split <;> omega
      have h4 : (a + b + cin) % 256 + 256 * ((A + B + carry) % M)
          < 256 * M := by
        have hm1 : (a + b + cin) % 256 < 256 := Nat.mod_lt _ (by norm_num)
        have hm2 : (A + B + carry) % M < M := Nat.mod_lt _ hMpos
        omega
      calc (a + b + cin) % 256 + 256 * ((A + B + carry) % M)
          = ((a + b + cin) % 256 + 256 * ((A + B + carry) % M)) % (256 * M) :=
            (Nat.mod_eq_of_lt h4).symm
        _ = ((a + b + cin) % 256 + 256 * (A + B + carry)) % (256 * M) := h2
        _ = (a + 256 * A + (b + 256 * B) + cin) % (256 * M) := by rw [h3]
        _ = (a + 256 * A + (b + 256 * B) + cin) % (M * 256) := by
            rw [Nat.mul_comm 256 M]

/-- Ripple-borrow correctness of the byte-wise subtraction loop: its value
is the difference modulo `256 ^ length`. -/
theorem subB_val (as : List Nat) : ∀ (bs : List Nat) (bin : Nat),
    as.length = bs.length → bytesWF as → bytesWF bs → bin ≤ 1 →
    valB (subB as bs bin)
      = (valB as + 256 ^ as.length - (valB bs + bin)) % 256 ^ as.length := by
  induction as with
  | nil =>
    intro bs bin h _ _ hc
    cases bs with
    | nil => simp [subB, valB]; omega
    | cons b bs => simp at h
  | cons a as ih =>
    intro bs bin h hwa hwb hc
    cases bs with
    | nil => simp at h
    | cons b bs =>
      have ha : a < 256 := hwa a (by simp)
      have hb : b < 256 := hwb b (by simp)
      have hwa' : bytesWF as := fun x hx => hwa x (by simp [hx])
      have hwb' : bytesWF bs := fun x hx => hwb x (by simp [hx])
      have hlen : as.length = bs.length := by simpa using h
      have hBM : valB bs < 256 ^ as.length := by
        rw [hlen]; exact valB_lt bs hwb'
      rw [subB, valB, valB, valB,
        ih bs _ hlen hwa' hwb' (by split <;> omega),
        List.length_cons, pow_succ]
      set M := 256 ^ as.length with hM
      have hMpos : 0 < M := pow_pos (by norm_num) _
      set A := valB as
      set B := valB bs
      set nb := if a < b + bin then 1 else 0 with hnb
      have h1 : (256 : Nat) * ((A + M - (B + nb)) % M)
          ≡ 256 * (A + M - (B + nb)) [MOD 256 * M] :=
        Nat.ModEq.mul_left' _ (Nat.mod_modEq _ M)
      have h2 : (a + 256 - (b + bin)) % 256 + 256 * ((A + M - (B + nb)) % M)
          ≡ (a + 256 - (b + bin)) % 256 + 256 * (A + M - (B + nb))
            [MOD 256 * M] := h1.add_left _
      have h3 : (a + 256 - (b + bin)) % 256 + 256 * (A + M - (B + nb))
          = a + 256 * A + M * 256 - (b + 256 * B + bin) := by
        rw [hnb]
        split <;> omega
      have h4 : (a + 256 - (b + bin)) % 256 + 256 * ((A + M - (B + nb)) % M)
          < 256 * M := by
        have hm1 : (a + 256 - (b + bin)) % 256 < 256 :=
          Nat.mod_lt _ (by norm_num)
        have hm2 : (A + M - (B + nb)) % M < M := Nat.mod_lt _ hMpos
        omega
      calc (a + 256 - (b + bin)) % 256 + 256 * ((A + M - (B + nb)) % M)
          = ((a + 256 - (b + bin)) % 256 + 256 * ((A + M - (B + nb)) % M))
              % (256 * M) := (Nat.mod_eq_of_lt h4).symm
        _ = ((a + 256 - (b + bin)) % 256 + 256 * (A + M - (B + nb)))
              % (256 * M) := h2
        _ = (a + 256 * A + M * 256 - (b + 256 * B + bin)) % (256 * M) := by
            rw [h3]
        _ = (a + 256 * A + M * 256 - (b + 256 * B + bin)) % (M * 256) := by
            rw [Nat.mul_comm 256 M]

theorem valB_inj (as : List Nat) : ∀ bs : List Nat,
    as.length = bs.length → bytesWF as → bytesWF bs →
    valB as = valB bs → as = bs := by
  induction as with
  | nil =>
    intro bs h _ _ _
    cases bs with
    | nil => rfl
    | cons b bs => simp at h
  | cons a as ih =>
    intro bs h hwa hwb hv
    cases bs with
    | nil => simp at h
    | cons b bs =>
      have ha : a < 256 := hwa a (by simp)
      have hb : b < 256 := hwb b (by simp)
      have hwa' : bytesWF as := fun x hx => hwa x (by simp [hx])
      have hwb' : bytesWF bs := fun x hx => hwb x (by simp [hx])
      rw [valB, valB] at hv
      have h1 : a = b := by omega
      have h2 : valB as = valB bs := by omega
      subst h1
      rw [ih bs (by simpa using h) hwa' hwb' h2]

theorem equals_of_bytes_eq (x y : Int64) (h : x.bytes = y.bytes) :
    x.equals y = true := by
  simp [Int64.equals, Int64.byteAt, h]

theorem list_eight (l : List Nat) (h : l.length = 8) :
    ∃ b0 b1 b2 b3 b4 b5 b6 b7, l = [b0, b1, b2, b3, b4, b5, b6, b7] := by
  obtain _ | ⟨b0, l⟩ := l; · simp at h
  obtain _ | ⟨b1, l⟩ := l; · simp at h
  obtain _ | ⟨b2, l⟩ := l; · simp at h
  obtain _ | ⟨b3, l⟩ := l; · simp at h
  obtain _ | ⟨b4, l⟩ := l; · simp at h
  obtain _ | ⟨b5, l⟩ := l; · simp at h
  obtain _ | ⟨b6, l⟩ := l; · simp at h
  obtain _ | ⟨b7, l⟩ := l; · simp at h
  obtain _ | ⟨b8, l⟩ := l
  · exact ⟨b0, b1, b2, b3, b4, b5, b6, b7, rfl⟩
  · simp at h

theorem map_neg_bytes (x : Int64) (hx : x.bytes.length = 8) :
    ∃ b0 b1 b2 b3 b4 b5 b6 b7,
      x.bytes = [b0, b1, b2, b3, b4, b5, b6, b7] ∧
      (List.range 8).map (fun i => 255 - x.byteAt i)
        = [255 - b0, 255 - b1, 255 - b2, 255 - b3,
           255 - b4, 255 - b5, 255 - b6, 255 - b7] := by
  obtain ⟨b0, b1, b2, b3, b4, b5, b6, b7, hb⟩ := list_eight x.bytes hx
  refine ⟨b0, b1, b2, b3, b4, b5, b6, b7, hb, ?_⟩
  rw [show List.range 8 = [0, 1, 2, 3, 4, 5, 6, 7] from rfl]
  simp [Int64.byteAt, hb]

/-- The value of `neg` is the two's complement modulo `2^64`. -/
theorem neg_val (x : Int64) (hx : x.bytes.length = 8) (wx : bytesWF x.bytes) :
    x.neg.val = (2 ^ 64 - x.val) % 2 ^ 64 := by
  obtain ⟨b0, b1, b2, b3, b4, b5, b6, b7, hb, hmap⟩ := map_neg_bytes x hx
  have h0 : b0 < 256 := wx b0 (by rw [hb]; simp)
  have h1 : b1 < 256 := wx b1 (by rw [hb]; simp)
  have h2 : b2 < 256 := wx b2 (by rw [hb]; simp)
  have h3 : b3 < 256 := wx b3 (by rw [hb]; simp)
  have h4 : b4 < 256 := wx b4 (by rw [hb]; simp)
  have h5 : b5 < 256 := wx b5 (by rw [hb]; simp)
  have h6 : b6 < 256 := wx b6 (by rw [hb]; simp)
  have h7 : b7 < 256 := wx b7 (by rw [hb]; simp)
  rw [Int64.neg, Int64.val]
  show valB (addB ((List.range 8).map fun i => 255 - x.byteAt i)
    Int64.One.bytes 0) = _
  rw [hmap, addB_val _ _ _ (by simp [Int64.One])
    (by intro y hy; simp at hy; omega)
    (by intro y hy; simp [Int64.One] at hy; omega)
    (by norm_num)]
  rw [Int64.val, hb]
  simp only [valB, Int64.One, List.replicate, List.length_cons,
    List.length_nil]
  norm_num
  omega

/-- C9: `Int64` arithmetic is exact two's-complement arithmetic modulo
`2^64`: the byte-wise carry-propagating `add` computes the sum mod `2^64`,
`a.add(b).sub(b).equals(a)` holds, and `a.add(a.neg()).equals(Int64.Zero)`
holds, for all well-formed 8-byte values. -/
theorem int64_arith_exact (x y : Int64)
    (hx : x.bytes.length = 8) (hy : y.bytes.length = 8)
    (wx : bytesWF x.bytes) (wy : bytesWF y.bytes) :
    (x.add y).val = (x.val + y.val) % 2 ^ 64 ∧
    ((x.add y).sub y).equals x = true ∧
    (x.add x.neg).equals Int64.Zero = true := by
  have hpow : (256 : Nat) ^ 8 = 2 ^ 64 := by norm_num
  have hlenxy : x.bytes.length = y.bytes.length := hx.trans hy.symm
  have hVx : valB x.bytes < 2 ^ 64 := by
    have := valB_lt x.bytes wx
    rwa [hx, hpow] at this
  have hVy : valB y.bytes < 2 ^ 64 := by
    have := valB_lt y.bytes wy
    rwa [hy, hpow] at this
  have hadd_val : (x.add y).val = (x.val + y.val) % 2 ^ 64 := by
    rw [Int64.val, Int64.val, Int64.val, Int64.add]
    show valB (addB x.bytes y.bytes 0) = _
    rw [addB_val x.bytes y.bytes 0 hlenxy wx wy (by norm_num), hx, hpow]
    norm_num
  have hadd_len : (x.add y).bytes.length = 8 := by
    show (addB x.bytes y.bytes 0).length = 8
    rw [addB_length x.bytes y.bytes 0 hlenxy, hx]
  have hadd_wf : bytesWF (x.add y).bytes := addB_wf x.bytes y.bytes 0
  refine ⟨hadd_val, ?_, ?_⟩
  · apply equals_of_bytes_eq
    apply valB_inj _ _ ?hlen ?hwf1 wx ?hval
    case hlen =>
      show (subB (x.add y).bytes y.bytes 0).length = x.bytes.length
      rw [subB_length _ _ _ (hadd_len.trans hy.symm), hadd_len, hx]
    case hwf1 => exact subB_wf _ _ _
    case hval =>
      show valB (subB (x.add y).bytes y.bytes 0) = valB x.bytes
      rw [subB_val _ _ _ (hadd_len.trans hy.symm) hadd_wf wy (by norm_num),
        hadd_len, hpow]
      have h1 : valB (x.add y).bytes = (valB x.bytes + valB y.bytes) % 2 ^ 64 :=
        hadd_val
      rw [h1]
      omega
  · have hneg_len : x.neg.bytes.length = 8 := by
      show (addB ((List.range 8).map fun i => 255 - x.byteAt i)
        Int64.One.bytes 0).length = 8
      rw [addB_length _ _ _ (by simp [Int64.One])]
      simp
    have hneg_wf : bytesWF x.neg.bytes := addB_wf _ _ _
    have hneg_val : valB x.neg.bytes = (2 ^ 64 - valB x.bytes) % 2 ^ 64 :=
      neg_val x hx wx
    apply equals_of_bytes_eq
    apply valB_inj _ _ ?hlenz ?hwfz1 ?hwfz2 ?hvalz
    case hlenz =>
      show (addB x.bytes x.neg.bytes 0).length = Int64.Zero.bytes.length
      rw [addB_length _ _ _ (hx.trans hneg_len.symm), hx]
      simp [Int64.Zero]
    case hwfz1 => exact addB_wf _ _ _
    case hwfz2 =>
      intro b hb
      simp [Int64.Zero] at hb
      omega
    case hvalz =>
      show valB (addB x.bytes x.neg.bytes 0) = valB Int64.Zero.bytes
      rw [addB_val _ _ _ (hx.trans hneg_len.symm) wx hneg_wf (by norm_num),
        hx, hpow, hneg_val]
      have hz : valB Int64.Zero.bytes = 0 := by
        simp [Int64.Zero, valB, List.replicate]
      rw [hz]
      omega

/-- Witness for `int64_arith_exact` at two concrete values whose sum
overflows 32 bits, requires carry propagation, and overflows `2^64`. -/
theorem int64_arith_exact_witness :
    (i64a.add i64b).val = (i64a.val + i64b.val) % 2 ^ 64 ∧
    ((i64a.add i64b).sub i64b).equals i64a = true ∧
    (i64a.add i64a.neg).equals Int64.Zero = true :=
  int64_arith_exact i64a i64b (by decide) (by decide) (by decide) (by decide)

end GameShare
